import Mathlib

/-!
Verification of the `tcalc` date/time expression evaluator.

This file is a shallow embedding, in Lean, of the three-stage pipeline of the
`tcalc` core crate (`src/core/src/lexer.rs`, `parser.rs`, `evaluator.rs`,
`lib.rs`), together with theorems settling the specification claims.

Modelling conventions:
* Raw input is a `List Char`; the `unscanny::Scanner` cursor is modelled by
  passing the remaining character list through every function.
* Rust machine integers are `Int`/`Nat` with explicit reduction modulo
  `2^64`, `2^32`, `2^8` at the points where the Rust code casts, and with
  release-mode (two's-complement wraparound) semantics for the duration
  literal multiplications.
* Fallible Rust code returns `Except`/`Option`.  A `time`-crate panic (the
  crate's `Add`/`Sub` operator impls for `Date`, `OffsetDateTime` and
  `Duration` call `checked_add(...).expect(...)`, which aborts the process on
  overflow) is modelled as the `none` case of an `Option` layer, so that
  "the code panics on this input" is an expressible, decidable fact.
* The single wall-clock read `OffsetDateTime::now_utc()` is modelled by a
  `clock` parameter threaded through the evaluator.
* Functions whose Rust originals recurse on a non-structural measure are
  written either with an inlined recursion step (`nextToken`: after
  `eat_whitespace` the following character can never be whitespace, so the
  recursive call in the whitespace branch runs its non-whitespace branches)
  or with a fuel parameter plus a proved clean unfolding equation
  (`tokenizeList`, `parseExprLoopF`), keeping every definition computable by
  the kernel.
-/

namespace Tcalc

/-! ## Character classes (the Rust `char` methods used by the lexer) -/

/-- Rust `char::is_ascii_digit`. -/
def isDigitC (c : Char) : Bool := 48 ≤ c.toNat && c.toNat ≤ 57

/-- Rust `char::is_ascii_alphabetic`. -/
def isAlphaC (c : Char) : Bool :=
  (65 ≤ c.toNat && c.toNat ≤ 90) || (97 ≤ c.toNat && c.toNat ≤ 122)

/-- Rust `char::is_whitespace` (the Unicode `White_Space` property), which is
what `unscanny::Scanner::eat_whitespace` consumes. -/
def isWhitespaceC (c : Char) : Bool :=
  c.toNat = 32 || (9 ≤ c.toNat && c.toNat ≤ 13) || c.toNat = 0x85 ||
  c.toNat = 0xA0 || c.toNat = 0x1680 ||
  (0x2000 ≤ c.toNat && c.toNat ≤ 0x200A) ||
  c.toNat = 0x2028 || c.toNat = 0x2029 || c.toNat = 0x202F ||
  c.toNat = 0x205F || c.toNat = 0x3000

/-! ## Tokens (`lexer.rs`, `enum Token`) -/

inductive Token where
  | number (n : Int)
  | ident (s : String)
  | plus
  | minus
  | colon
  | slash
  | eof
  | illegal
deriving DecidableEq, Repr

/-- A single-quote character, as a string; the Rust error messages quote
values with it. -/
def qt : String := String.mk [Char.ofNat 39]

def i64MaxNat : Nat := 9223372036854775807

/-- Numeric value of a run of ASCII digit characters
(Rust `str::parse::<i64>` on a digit-only slice, before its overflow check). -/
def digitsVal (ds : List Char) : Nat :=
  ds.foldl (fun a c => 10 * a + (c.toNat - 48)) 0

/-- `impl Display for Token` (`lexer.rs`). -/
def Token.render : Token → String
  | .number n => "Number(" ++ toString n ++ ")"
  | .ident s => "Ident(" ++ s ++ ")"
  | .plus => "Plus"
  | .minus => "Minus"
  | .colon => "Colon"
  | .slash => "Slash"
  | .eof => "Eof"
  | .illegal => "Illegal"

/-! ## The lexer (`Lexer::next_token`)

`next_token` eats one character and dispatches on it.  The digit and
alphabetic branches back the scanner up (`uneat`) and greedily consume the
whole run.  The whitespace branch (`Some(' ')`) eats the entire following
whitespace run (`Scanner::eat_whitespace`, i.e. *any* `char::is_whitespace`
characters, not only spaces) and then recursively calls `next_token`; since
the character after the consumed run can never be whitespace again, that
recursive call is inlined here as `nextTokenBase`, which handles exactly the
non-whitespace branches of the Rust `match`. -/

def nextTokenBase (c : Char) (rest : List Char) : Token × List Char :=
  if c = '+' then (.plus, rest)
  else if c = '-' then (.minus, rest)
  else if c = ':' then (.colon, rest)
  else if c = '/' then (.slash, rest)
  else if isDigitC c then
    (if digitsVal ((c :: rest).takeWhile (fun d => isDigitC d)) ≤ i64MaxNat
     then .number (Int.ofNat (digitsVal ((c :: rest).takeWhile (fun d => isDigitC d))))
     else .illegal,
     (c :: rest).dropWhile (fun d => isDigitC d))
  else if isAlphaC c then
    (.ident (String.mk ((c :: rest).takeWhile (fun d => isAlphaC d))),
     (c :: rest).dropWhile (fun d => isAlphaC d))
  else (.illegal, rest)

def nextToken : List Char → Token × List Char
  | [] => (.eof, [])
  | c :: rest =>
    if c = ' ' then
      match rest.dropWhile (fun d => isWhitespaceC d) with
      | [] => (.eof, [])
      | c2 :: rest2 => nextTokenBase c2 rest2
    else nextTokenBase c rest

def tokenizeListAux : Nat → List Char → List Token
  | 0, _ => []
  | fuel + 1, s =>
    if (nextToken s).1 = Token.eof then []
    else (nextToken s).1 :: tokenizeListAux fuel (nextToken s).2

/-- The full (finite) token sequence of an input: pull tokens until `Eof`.
The Rust lexer's `Iterator` never ends (it yields `Some(Eof)` forever); this
list is the prefix before the first `Eof`. -/
def tokenizeList (s : List Char) : List Token := tokenizeListAux (s.length + 1) s

/-! ## The AST and parse errors (`parser.rs`) -/

inductive Keyword where
  | today
  | now
  | tomorrow
  | yesterday
deriving DecidableEq, Repr

inductive TimeUnit where
  | years
  | months
  | days
  | hours
  | minutes
  | seconds
deriving DecidableEq, Repr

inductive Op where
  | add
  | sub
deriving DecidableEq, Repr

/-- `impl Display for Op`. -/
def Op.render : Op → String
  | .add => "+"
  | .sub => "-"

/-- `enum Expr`.  The Rust fields are `u32`/`u8` for dates and times and
`i64` for durations; the parser performs the narrowing `as` casts, so the
`Nat` fields here always hold the cast-reduced values. -/
inductive Expr where
  | date (year month day : Nat)
  | time (hour minute : Nat)
  | dateTime (year month day hour minute : Nat)
  | keyword (k : Keyword)
  | duration (value : Int) (unit : TimeUnit)
  | binOp (l : Expr) (op : Op) (r : Expr)
deriving DecidableEq, Repr

inductive ParsingError where
  | unexpectedToken (t : Token)
  | unknownKeyword (s : String)
  | unexpectedIdent (s : String)
  | unexpectedEof
  | expectedIdent
  | expectedNumber
  | expectedSlash
  | expectedColon
  | expectedUnit
  | invalidYear (y : Int)
  | invalidTime (s : String)
deriving DecidableEq, Repr

/-- `impl Display for ParsingError`. -/
def ParsingError.render : ParsingError → String
  | .unexpectedToken t => "unexpected token " ++ qt ++ t.render ++ qt
  | .unknownKeyword s => "unknown keyword " ++ qt ++ s ++ qt
  | .unexpectedIdent s => "unexpected identifier " ++ qt ++ s ++ qt
  | .unexpectedEof => "unexpected end of input"
  | .expectedIdent => "expected identifier"
  | .expectedNumber => "expected number"
  | .expectedSlash => "expected slash"
  | .expectedColon => "expected colon"
  | .expectedUnit => "expected unit"
  | .invalidYear y => "invalid year " ++ qt ++ toString y ++ qt
  | .invalidTime s => "invalid time " ++ qt ++ s ++ qt

deriving instance DecidableEq for Except

/-- Rust `value as u32` on an `i64` value: keep the low 32 bits. -/
def u32cast (n : Int) : Nat := (n.emod (2 ^ 32)).toNat

/-- Rust `value as u8` on an `i64` value: keep the low 8 bits. -/
def u8cast (n : Int) : Nat := (n.emod (2 ^ 8)).toNat

/-- `impl TryFrom<&str> for Unit` (`parser.rs`). -/
def unitTryFrom (s : String) : Except ParsingError TimeUnit :=
  if s = "years" || s = "year" || s = "y" then .ok .years
  else if s = "months" || s = "month" then .ok .months
  else if s = "days" || s = "day" || s = "d" then .ok .days
  else if s = "hours" || s = "hour" || s = "h" then .ok .hours
  else if s = "minutes" || s = "minute" || s = "m" then .ok .minutes
  else if s = "seconds" || s = "second" || s = "s" then .ok .seconds
  else .error (.unknownKeyword s)

/-! ## The parser (`parser.rs`)

The Rust parser owns a `Peekable<Lexer>`.  The lexer's `Iterator::next`
always returns `Some(self.next_token())`, which `iterNext` mirrors; `peekTok`
is `Peekable::peek`, the same token without advancing the cursor.  Every
`None =>` arm of the Rust `match`es is reproduced, even though `iterNext`
and `peekTok` never return `none`. -/

def iterNext (s : List Char) : Option Token × List Char :=
  (some (nextToken s).1, (nextToken s).2)

def peekTok (s : List Char) : Option Token := some (nextToken s).1

/-- `expect_number`. -/
def expectNumber (s : List Char) : Except ParsingError (Int × List Char) :=
  match iterNext s with
  | (some (.number n), s1) => .ok (n, s1)
  | (some _, _) => .error .expectedNumber
  | (none, _) => .error .expectedNumber

/-- `expect_token`. -/
def expectToken (s : List Char) (expected : Token) (err : ParsingError) :
    Except ParsingError (List Char) :=
  match iterNext s with
  | (some t, s1) => if t = expected then .ok s1 else .error (.unexpectedToken t)
  | (none, _) => .error err

/-- `parse_ident`. -/
def parseIdent (s : List Char) : Except ParsingError (Expr × List Char) :=
  match iterNext s with
  | (some (.ident str), s1) =>
    if str = "today" then .ok (.keyword .today, s1)
    else if str = "tomorrow" then .ok (.keyword .tomorrow, s1)
    else if str = "yesterday" then .ok (.keyword .yesterday, s1)
    else if str = "now" then .ok (.keyword .now, s1)
    else .error (.unknownKeyword str)
  | (some _, _) => .error .expectedIdent
  | (none, _) => .error .expectedIdent

/-- `parse_date`, entered after the leading `NUMBER` with a peeked `/`. -/
def parseDate (s : List Char) (year : Int) : Except ParsingError (Expr × List Char) :=
  match expectToken s .slash .expectedSlash with
  | .error e => .error e
  | .ok s1 =>
    match expectNumber s1 with
    | .error e => .error e
    | .ok (month, s2) =>
      match expectToken s2 .slash .expectedSlash with
      | .error e => .error e
      | .ok s3 =>
        match expectNumber s3 with
        | .error e => .error e
        | .ok (day, s4) =>
          match peekTok s4 with
          | some (.number _) =>
            match expectNumber s4 with
            | .error e => .error e
            | .ok (hour, s5) =>
              match expectToken s5 .colon .expectedColon with
              | .error e => .error e
              | .ok s6 =>
                match expectNumber s6 with
                | .error e => .error e
                | .ok (minute, s7) =>
                  .ok (.dateTime (u32cast year) (u8cast month) (u8cast day)
                        (u8cast hour) (u8cast minute), s7)
          | _ => .ok (.date (u32cast year) (u8cast month) (u8cast day), s4)

/-- `parse_time`, entered after the leading `NUMBER` with a peeked `:`. -/
def parseTime (s : List Char) (hour : Int) : Except ParsingError (Expr × List Char) :=
  match expectToken s .colon .expectedColon with
  | .error e => .error e
  | .ok s1 =>
    match expectNumber s1 with
    | .error e => .error e
    | .ok (minute, s2) => .ok (.time (u8cast hour) (u8cast minute), s2)

/-- `parse_duration`. -/
def parseDuration (s : List Char) (value : Int) : Except ParsingError (Expr × List Char) :=
  match iterNext s with
  | (some (.ident u), s1) =>
    match unitTryFrom u with
    | .error e => .error e
    | .ok un => .ok (.duration value un, s1)
  | (some _, _) => .error .expectedUnit
  | (none, _) => .error .expectedUnit

def hoursInHalfDay : Int := 12

/-- `parse_number`: the grammar-disambiguation step after a leading
`NUMBER`. -/
def parseNumber (s : List Char) : Except ParsingError (Expr × List Char) :=
  match expectNumber s with
  | .error e => .error e
  | .ok (firstNum, s1) =>
    match peekTok s1 with
    | some .slash => parseDate s1 firstNum
    | some .colon => parseTime s1 firstNum
    | some (.ident id) =>
      if id = "am" then
        let s2 := (iterNext s1).2
        if 1 ≤ firstNum ∧ firstNum ≤ 11 then .ok (.time (u8cast firstNum) 0, s2)
        else if firstNum = 12 then .ok (.time 0 0, s2)
        else .error (.invalidTime (toString firstNum ++ " am"))
      else if id = "pm" then
        let s2 := (iterNext s1).2
        if 1 ≤ firstNum ∧ firstNum ≤ 11 then
          .ok (.time (u8cast (firstNum + hoursInHalfDay)) 0, s2)
        else if firstNum = 12 then .ok (.time 12 0, s2)
        else .error (.invalidTime (toString firstNum ++ " pm"))
      else parseDuration s1 firstNum
    | some t => .error (.unexpectedToken t)
    | none => .error .unexpectedEof

/-- `parse_primary`. -/
def parsePrimary (s : List Char) : Except ParsingError (Expr × List Char) :=
  match peekTok s with
  | some (.number _) => parseNumber s
  | some (.ident _) => parseIdent s
  | some t => .error (.unexpectedToken t)
  | none => .error .unexpectedEof

/-- The `while let Some(Plus | Minus) = tokens.peek()` loop of `parse_expr`,
written with fuel.  Each iteration consumes at least the operator character,
so fuel `s.length + 1` always suffices (`parseExprLoopF_fuel` below). -/
def parseExprLoopF : Nat → Expr → List Char → Except ParsingError (Expr × List Char)
  | 0, left, s => .ok (left, s)
  | fuel + 1, left, s =>
    if peekTok s = some Token.plus ∨ peekTok s = some Token.minus then
      match iterNext s with
      | (some .plus, s1) =>
        match parsePrimary s1 with
        | .error e => .error e
        | .ok (right, s2) => parseExprLoopF fuel (.binOp left .add right) s2
      | (some .minus, s1) =>
        match parsePrimary s1 with
        | .error e => .error e
        | .ok (right, s2) => parseExprLoopF fuel (.binOp left .sub right) s2
      | (some t, _) => .error (.unexpectedToken t)
      | (none, _) => .error .unexpectedEof
    else .ok (left, s)

/-- `parse_expr`. -/
def parseExpr (s : List Char) : Except ParsingError (Expr × List Char) :=
  match parsePrimary s with
  | .error e => .error e
  | .ok (left, s1) => parseExprLoopF (s1.length + 1) left s1

/-- `parse`: builds the peekable token stream and runs `parse_expr`.
Trailing tokens after the parsed expression are ignored, as in the source. -/
def parse (s : List Char) : Except ParsingError Expr :=
  match parseExpr s with
  | .error e => .error e
  | .ok (e, _) => .ok e

/-! ## The evaluator's value model (`evaluator.rs` plus the `time` crate)

`Value` wraps the `time` crate types `Date`, `OffsetDateTime`, `Duration`
and `Time`.  Dates are kept as validated calendar triples; conversions to
and from a linear day count (the crate's Julian-day representation, used by
its date arithmetic) follow the standard civil-calendar algorithms.  The
crate's supported year range (default features) is `-9999..=9999`; operations
landing outside it return `none` from the `checked_*` functions, and the
operator impls (`Date + Duration` etc.) panic in that case, which the
evaluator model propagates as `none`. -/

def i64Min : Int := -9223372036854775808

def i64Max : Int := 9223372036854775807

def i32Min : Int := -2147483648

def i32Max : Int := 2147483647

/-- Two's-complement wraparound of an integer into the `i64` range (Rust
release-profile multiplication overflow semantics). -/
def i64wrap (x : Int) : Int := (x + 2 ^ 63).emod (2 ^ 64) - 2 ^ 63

/-- `i64::checked_add`-style range gate. -/
def checkedI64 (x : Int) : Option Int :=
  if i64Min ≤ x ∧ x ≤ i64Max then some x else none

/-- `i32::checked_add`-style range gate. -/
def checkedI32 (x : Int) : Option Int :=
  if i32Min ≤ x ∧ x ≤ i32Max then some x else none

def isLeapYear (y : Int) : Bool :=
  y.emod 4 = 0 && (y.emod 100 ≠ 0 || y.emod 400 = 0)

def daysInMonth (y : Int) (m : Nat) : Nat :=
  if m = 2 then (if isLeapYear y then 29 else 28)
  else if m = 4 || m = 6 || m = 9 || m = 11 then 30
  else 31

/-- `time::Date` (validated calendar date). -/
structure TDate where
  year : Int
  month : Nat
  day : Nat
deriving DecidableEq, Repr

/-- `time::Time`. -/
structure TTime where
  hour : Nat
  minute : Nat
  second : Nat
  nano : Nat
deriving DecidableEq, Repr

/-- `time::Duration` (whole seconds plus a nanosecond part). -/
structure TDuration where
  seconds : Int
  nanos : Int
deriving DecidableEq, Repr

/-- `time::OffsetDateTime`. -/
structure TDateTime where
  date : TDate
  time : TTime
  offsetSeconds : Int
deriving DecidableEq, Repr

/-- Days since 1970-01-01 of a civil date (standard algorithm). -/
def daysFromCivil (y : Int) (m : Nat) (d : Nat) : Int :=
  let y1 : Int := if m ≤ 2 then y - 1 else y
  let era : Int := y1.ediv 400
  let yoe : Nat := (y1 - era * 400).toNat
  let mp : Nat := if 2 < m then m - 3 else m + 9
  let doy : Nat := (153 * mp + 2) / 5 + d - 1
  let doe : Nat := yoe * 365 + yoe / 4 - yoe / 100 + doy
  era * 146097 + (doe : Int) - 719468

/-- Civil date of a count of days since 1970-01-01 (standard algorithm). -/
def civilFromDays (z0 : Int) : Int × Nat × Nat :=
  let z : Int := z0 + 719468
  let era : Int := z.ediv 146097
  let doe : Nat := (z - era * 146097).toNat
  let yoe : Nat := (doe - doe / 1460 + doe / 36524 - doe / 146096) / 365
  let doy : Nat := doe - (365 * yoe + yoe / 4 - yoe / 100)
  let mp : Nat := (5 * doy + 2) / 153
  let d : Nat := doy - (153 * mp + 2) / 5 + 1
  let m : Nat := if mp < 10 then mp + 3 else mp - 9
  let y : Int := (yoe : Int) + era * 400 + (if m ≤ 2 then 1 else 0)
  (y, m, d)

/-- Offset between the Julian day number and days-since-1970. -/
def julianEpochShift : Int := 2440588

/-- `Date::to_julian_day`. -/
def TDate.toJulianDay (d : TDate) : Int :=
  daysFromCivil d.year d.month d.day + julianEpochShift

/-- `Date::from_julian_day`: fails outside the supported year range
`-9999..=9999`. -/
def fromJulianDay (j : Int) : Option TDate :=
  let c := civilFromDays (j - julianEpochShift)
  if -9999 ≤ c.1 ∧ c.1 ≤ 9999 then some ⟨c.1, c.2.1, c.2.2⟩ else none

/-- `Date::from_calendar_date`: year-range check, then day-of-month check
(with leap years). -/
def fromCalendarDate (y : Int) (m : Nat) (d : Nat) : Option TDate :=
  if -9999 ≤ y ∧ y ≤ 9999 ∧ 1 ≤ d ∧ d ≤ daysInMonth y m then some ⟨y, m, d⟩
  else none

def secondsPerDay : Int := 86400

def nanosPerDay : Int := 86400000000000

def nanosPerSecond : Int := 1000000000

/-- `Duration::seconds`. -/
def durSeconds (s : Int) : TDuration := ⟨s, 0⟩

/-- `Duration::days` (`days * 86_400` seconds, wrapping multiply). -/
def durDays (d : Int) : TDuration := durSeconds (i64wrap (d * 86400))

/-- `Duration::hours`. -/
def durHours (h : Int) : TDuration := durSeconds (i64wrap (h * 3600))

/-- `Duration::minutes`. -/
def durMinutes (m : Int) : TDuration := durSeconds (i64wrap (m * 60))

/-- `Duration::whole_days` (integer division truncating toward zero). -/
def TDuration.wholeDays (d : TDuration) : Int := d.seconds.tdiv 86400

def TDuration.totalNanos (d : TDuration) : Int := d.seconds * nanosPerSecond + d.nanos

/-- `Duration::checked_add`: checked second addition with nanosecond carry
normalisation keeping the two components the same sign. -/
def durCheckedAdd (a b : TDuration) : Option TDuration :=
  match checkedI64 (a.seconds + b.seconds) with
  | none => none
  | some s0 =>
    let n := a.nanos + b.nanos
    if n ≥ nanosPerSecond ∨ (s0 < 0 ∧ n > 0) then
      match checkedI64 (s0 + 1) with
      | none => none
      | some s1 => some ⟨s1, n - nanosPerSecond⟩
    else if n ≤ -nanosPerSecond ∨ (s0 > 0 ∧ n < 0) then
      match checkedI64 (s0 - 1) with
      | none => none
      | some s1 => some ⟨s1, n + nanosPerSecond⟩
    else some ⟨s0, n⟩

/-- `Duration::checked_sub`. -/
def durCheckedSub (a b : TDuration) : Option TDuration :=
  match checkedI64 (a.seconds - b.seconds) with
  | none => none
  | some s0 =>
    let n := a.nanos - b.nanos
    if n ≥ nanosPerSecond ∨ (s0 < 0 ∧ n > 0) then
      match checkedI64 (s0 + 1) with
      | none => none
      | some s1 => some ⟨s1, n - nanosPerSecond⟩
    else if n ≤ -nanosPerSecond ∨ (s0 > 0 ∧ n < 0) then
      match checkedI64 (s0 - 1) with
      | none => none
      | some s1 => some ⟨s1, n + nanosPerSecond⟩
    else some ⟨s0, n⟩

def TTime.toNanosOfDay (t : TTime) : Int :=
  ((t.hour * 3600 + t.minute * 60 + t.second) : Int) * nanosPerSecond + t.nano

def timeFromNanosOfDay (n : Nat) : TTime :=
  ⟨n / 3600000000000, n / 60000000000 % 60, n / 1000000000 % 60, n % 1000000000⟩

/-- `Time::adjusting_add` / `adjusting_sub`: wrap-around addition of a
(sub-day) nanosecond delta; the first component is the day carry that the
componentwise cascade in the crate reports as a `DateAdjustment`. -/
def timeAdjusting (t : TTime) (deltaNanos : Int) : Int × TTime :=
  let total := t.toNanosOfDay + deltaNanos
  let carry := total.ediv nanosPerDay
  let newT := (total.emod nanosPerDay).toNat
  (carry, timeFromNanosOfDay newT)

/-- `Date::checked_add`/`checked_sub` after the whole-day count is known:
`i32` gate on the day count, checked Julian-day addition, then the
range-checked `from_julian_day`. -/
def dateCheckedAddDays (d : TDate) (wholeDays : Int) : Option TDate :=
  if wholeDays < i32Min ∨ i32Max < wholeDays then none
  else
    match checkedI32 (d.toJulianDay + wholeDays) with
    | none => none
    | some j => fromJulianDay j

/-- `Date::checked_add(duration)`: only `duration.whole_days()` moves a
date. -/
def dateCheckedAdd (d : TDate) (dur : TDuration) : Option TDate :=
  dateCheckedAddDays d dur.wholeDays

/-- `Date::checked_sub(duration)`. -/
def dateCheckedSub (d : TDate) (dur : TDuration) : Option TDate :=
  dateCheckedAddDays d (-dur.wholeDays)

/-- `impl Sub for Date`: `Duration::days(self.to_julian_day() -
other.to_julian_day())`. -/
def dateSubDate (l r : TDate) : TDuration :=
  durDays (l.toJulianDay - r.toJulianDay)

/-- `PrimitiveDateTime::checked_add` under the offset wrapper: the time of
day wraps with a day carry, the carry and the duration's whole days move the
date, and overflow of the supported date range gives `none`. -/
def dtCheckedAdd (dt : TDateTime) (dur : TDuration) : Option TDateTime :=
  let sub := dur.totalNanos - dur.wholeDays * nanosPerDay
  let a := timeAdjusting dt.time sub
  match dateCheckedAddDays dt.date a.1 with
  | none => none
  | some d1 =>
    match dateCheckedAdd d1 dur with
    | none => none
    | some d2 => some ⟨d2, a.2, dt.offsetSeconds⟩

/-- `PrimitiveDateTime::checked_sub` under the offset wrapper. -/
def dtCheckedSub (dt : TDateTime) (dur : TDuration) : Option TDateTime :=
  let sub := dur.totalNanos - dur.wholeDays * nanosPerDay
  let a := timeAdjusting dt.time (-sub)
  match dateCheckedAddDays dt.date a.1 with
  | none => none
  | some d1 =>
    match dateCheckedSub d1 dur with
    | none => none
    | some d2 => some ⟨d2, a.2, dt.offsetSeconds⟩

/-- `impl Add<Duration> for Time` (wraps within the day, never fails). -/
def timeAddWrap (t : TTime) (dur : TDuration) : TTime := (timeAdjusting t dur.totalNanos).2

/-- `impl Sub<Duration> for Time`. -/
def timeSubWrap (t : TTime) (dur : TDuration) : TTime := (timeAdjusting t (-dur.totalNanos)).2

/-! ## `Value`, `EvalError` and evaluation (`evaluator.rs`) -/

inductive Value where
  | date (d : TDate)
  | dateTime (dt : TDateTime)
  | duration (d : TDuration)
  | time (t : TTime)
deriving DecidableEq, Repr

inductive EvalError where
  | invalidDate (year month day : Nat)
  | invalidMonth (month : Nat)
  | invalidTime (hour minute second : Nat)
  | invalidOp (op : Op) (left right : Value)
deriving DecidableEq, Repr

/-- `Value::type_name`. -/
def Value.typeName : Value → String
  | .date _ => "Date"
  | .dateTime _ => "DateTime"
  | .duration _ => "Duration"
  | .time _ => "Time"

/-- `Value::add`.  The in-table arms apply the `time` crate's `+` operators,
which panic (`none`) when the checked arithmetic overflows; every other
combination is `InvalidOp`. -/
def Value.add (a b : Value) : Option (Except EvalError Value) :=
  match a, b with
  | .date l, .duration r => (dateCheckedAdd l r).map (fun d => .ok (.date d))
  | .dateTime l, .duration r => (dtCheckedAdd l r).map (fun d => .ok (.dateTime d))
  | .time l, .duration r => some (.ok (.time (timeAddWrap l r)))
  | .duration l, .duration r => (durCheckedAdd l r).map (fun d => .ok (.duration d))
  | _, _ => some (.error (.invalidOp .add a b))

/-- `Value::sub`. -/
def Value.sub (a b : Value) : Option (Except EvalError Value) :=
  match a, b with
  | .date l, .duration r => (dateCheckedSub l r).map (fun d => .ok (.date d))
  | .dateTime l, .duration r => (dtCheckedSub l r).map (fun d => .ok (.dateTime d))
  | .time l, .duration r => some (.ok (.time (timeSubWrap l r)))
  | .duration l, .duration r => (durCheckedSub l r).map (fun d => .ok (.duration d))
  | .date l, .date r => some (.ok (.duration (dateSubDate l r)))
  | _, _ => some (.error (.invalidOp .sub a b))

/-- `Month::try_from(u8)`. -/
def monthFromU8 (m : Nat) : Option Nat := if 1 ≤ m ∧ m ≤ 12 then some m else none

/-- Rust `year as i32` on a `u32` value: wrapping cast into the signed
range. -/
def i32wrapOfU32 (n : Nat) : Int := if n < 2 ^ 31 then (n : Int) else (n : Int) - 2 ^ 32

/-- `Value::from_date`: month via `Month::try_from`, year via the *checked*
`u32 -> i32` `try_into` (error for `year >= 2^31`), then
`Date::from_calendar_date`. -/
def fromDate (year month day : Nat) : Except EvalError Value :=
  match monthFromU8 month with
  | none => .error (.invalidMonth month)
  | some m =>
    if 2 ^ 31 ≤ year then .error (.invalidDate year month day)
    else
      match fromCalendarDate (year : Int) m day with
      | none => .error (.invalidDate year month day)
      | some d => .ok (.date d)

/-- `Value::from_time` (`Time::from_hms`). -/
def fromTime (hour minute second : Nat) : Except EvalError Value :=
  if hour ≤ 23 ∧ minute ≤ 59 ∧ second ≤ 59 then .ok (.time ⟨hour, minute, second, 0⟩)
  else .error (.invalidTime hour minute second)

def daysPerYearApprox : Int := 365

def daysPerMonthApprox : Int := 30

/-- `Value::from_duration`: fixed per-unit conversion (years as 365 days,
months as 30 days); the multiplications wrap in release builds. -/
def fromDuration (value : Int) (unit : TimeUnit) : Except EvalError Value :=
  .ok (.duration (match unit with
    | .years => durDays (i64wrap (value * daysPerYearApprox))
    | .months => durDays (i64wrap (value * daysPerMonthApprox))
    | .days => durDays value
    | .hours => durHours value
    | .minutes => durMinutes value
    | .seconds => durSeconds value))

/-- `Value::from_datetime`: month via `Month::try_from`, year via the
*wrapping* `year as i32` cast, `Date::from_calendar_date`, then
`Time::from_hms(hour, minute, 0)`, offset UTC. -/
def fromDatetime (year month day hour minute : Nat) : Except EvalError Value :=
  match monthFromU8 month with
  | none => .error (.invalidMonth month)
  | some m =>
    match fromCalendarDate (i32wrapOfU32 year) m day with
    | none => .error (.invalidDate year month day)
    | some d =>
      if hour ≤ 23 ∧ minute ≤ 59 then
        .ok (.dateTime ⟨d, ⟨hour, minute, 0, 0⟩, 0⟩)
      else .error (.invalidTime hour minute 0)

/-- `Value::from_keyword`: the only wall-clock read; `Tomorrow`/`Yesterday`
use the `time` crate's `Date` `+`/`-` operators, which panic on range
overflow. -/
def fromKeyword (clock : TDateTime) (k : Keyword) : Option (Except EvalError Value) :=
  match k with
  | .now => some (.ok (.dateTime clock))
  | .today => some (.ok (.date clock.date))
  | .tomorrow => (dateCheckedAdd clock.date (durDays 1)).map (fun d => .ok (.date d))
  | .yesterday => (dateCheckedSub clock.date (durDays 1)).map (fun d => .ok (.date d))

/-- `eval`: recursive reduction; operand errors short-circuit, then the
operator dispatches through `Value::add`/`Value::sub`. -/
def eval (clock : TDateTime) : Expr → Option (Except EvalError Value)
  | .binOp l op r =>
    match eval clock l with
    | none => none
    | some (.error e) => some (.error e)
    | some (.ok lv) =>
      match eval clock r with
      | none => none
      | some (.error e) => some (.error e)
      | some (.ok rv) =>
        match op with
        | .add => lv.add rv
        | .sub => lv.sub rv
  | .time h m => some (fromTime h m 0)
  | .date y m d => some (fromDate y m d)
  | .duration v u => some (fromDuration v u)
  | .keyword k => fromKeyword clock k
  | .dateTime y m d h mi => some (fromDatetime y m d h mi)

/-! ## Display formatting (`impl Display for Value` and helpers) -/

/-- Decimal digit character. -/
def digitChar (n : Nat) : Char :=
  if n = 0 then '0' else if n = 1 then '1' else if n = 2 then '2'
  else if n = 3 then '3' else if n = 4 then '4' else if n = 5 then '5'
  else if n = 6 then '6' else if n = 7 then '7' else if n = 8 then '8' else '9'

/-- Decimal rendering of a natural number, most significant digit first,
with a fuel argument (`n + 1` digits always suffice). -/
def natDecAux : Nat → Nat → List Char → List Char
  | 0, _, acc => acc
  | f + 1, n, acc =>
    if n < 10 then digitChar (n % 10) :: acc
    else natDecAux f (n / 10) (digitChar (n % 10) :: acc)

def natDecL (n : Nat) : List Char := natDecAux (n + 1) n []

def natDec (n : Nat) : String := String.mk (natDecL n)

/-- Left. zero padding to a minimum width (Rust `{:0w}` on an unsigned
value). -/
def padZeros (w : Nat) (l : List Char) : List Char := List.replicate (w - l.length) '0' ++ l

/-- Rust `{:02}`. -/
def pad2 (n : Nat) : String := String.mk (padZeros 2 (natDecL n))

/-- The nanosecond field `format!("{:09}", nanosecond)`. -/
def pad9 (n : Nat) : List Char := padZeros 9 (natDecL n)

/-- Rust `{:04}` on a signed integer: the sign counts toward the width and
the zero padding goes after the sign. -/
def pad4Int (y : Int) : String :=
  if y < 0 then String.mk ('-' :: padZeros 3 (natDecL (-y).toNat))
  else String.mk (padZeros 4 (natDecL y.toNat))

/-- The `while subseconds.ends_with('0') { subseconds.pop(); }` loop of
`write_time`. -/
def stripTrailingZeros (l : List Char) : List Char :=
  (l.reverse.dropWhile (fun c => c = '0')).reverse

/-- `write_date`: `"{:04}-{:02}-{:02}"`. -/
def writeDate (d : TDate) : String :=
  pad4Int d.year ++ "-" ++ pad2 d.month ++ "-" ++ pad2 d.day

/-- `write_time`: `HH:MM`, then a seconds field when seconds or sub-second
nanoseconds are non-zero, then a fraction (nanosecond precision, trailing
zeros stripped) when the nanoseconds are non-zero. -/
def writeTime (t : TTime) : String :=
  pad2 t.hour ++ ":" ++ pad2 t.minute ++
    (if t.second ≠ 0 ∨ t.nano ≠ 0 then
      ":" ++ pad2 t.second ++
        (if t.nano ≠ 0 then "." ++ String.mk (stripTrailingZeros (pad9 t.nano)) else "")
    else "")

/-- `format_offset`. -/
def formatOffset (offsetSeconds : Int) : String :=
  let sign := if 0 ≤ offsetSeconds then "+" else "-"
  let t := offsetSeconds.natAbs
  let h := t / 3600
  let m := t % 3600 / 60
  let s := t % 60
  if s = 0 then sign ++ pad2 h ++ ":" ++ pad2 m
  else sign ++ pad2 h ++ ":" ++ pad2 m ++ ":" ++ pad2 s

/-- `write_datetime`. -/
def writeDatetime (dt : TDateTime) : String :=
  writeDate dt.date ++ " " ++ writeTime dt.time ++
    (if dt.offsetSeconds ≠ 0 then " " ++ formatOffset dt.offsetSeconds else " +00:00")

def durItem (value : Nat) (unitName : String) : String :=
  if value = 0 then "" else natDec value ++ unitName

/-- `impl Display for time::Duration` under default formatting options:
optional sign, `0s` for zero, otherwise non-zero components with unit
suffixes. -/
def displayDuration (d : TDuration) : String :=
  let sgn := if d.seconds < 0 ∨ d.nanos < 0 then "-" else ""
  if d.seconds = 0 ∧ d.nanos = 0 then sgn ++ "0s"
  else
    let s := d.seconds.natAbs
    let n := d.nanos.natAbs
    sgn ++ durItem (s / 86400) "d" ++ durItem (s / 3600 % 24) "h" ++
      durItem (s / 60 % 60) "m" ++ durItem (s % 60) "s" ++
      durItem (n / 1000000) "ms" ++ durItem (n / 1000 % 1000) "µs" ++
      durItem (n % 1000) "ns"

/-- `impl Display for Value`. -/
def Value.render : Value → String
  | .date d => writeDate d
  | .dateTime dt => writeDatetime dt
  | .duration d => displayDuration d
  | .time t => writeTime t

/-- `impl Display for EvalError`. -/
def EvalError.render : EvalError → String
  | .invalidDate y m d =>
    "invalid date " ++ qt ++ natDec y ++ "-" ++ natDec m ++ "-" ++ natDec d ++ qt
  | .invalidMonth m => "invalid month " ++ qt ++ natDec m ++ qt
  | .invalidTime h m s =>
    "invalid time " ++ qt ++ natDec h ++ ":" ++ natDec m ++ ":" ++ natDec s ++ qt
  | .invalidOp op l r =>
    "invalid operation " ++ qt ++ op.render ++ qt ++ " for " ++ qt ++ l.typeName ++
      qt ++ " and " ++ qt ++ r.typeName ++ qt

/-! ## The public pipeline (`lib.rs`, `run`) -/

/-- `run`: parse, evaluate, render; stage-labelled error messages.  The
`clock` argument models the wall-clock instant `OffsetDateTime::now_utc()`
would return during this evaluation; `none` models a panic escaping `run`. -/
def run (clock : TDateTime) (input : List Char) : Option (Except String String) :=
  match parse input with
  | .error e => some (.error ("failed to parse expression: " ++ e.render))
  | .ok ast =>
    match eval clock ast with
    | none => none
    | some (.error e) => some (.error ("failed to evaluate expression: " ++ e.render))
    | some (.ok v) => some (.ok v.render)

/-- A fixed sample instant for closed evaluations (2025-09-27 12:30:15 UTC). -/
def sampleClock : TDateTime := ⟨⟨2025, 9, 27⟩, ⟨12, 30, 15, 0⟩, 0⟩

/-- A second, different sample instant. -/
def sampleClock2 : TDateTime := ⟨⟨1999, 1, 2⟩, ⟨3, 4, 5, 6⟩, 0⟩

/-- The loop of `parse_expr` with its canonical fuel. -/
def parseExprLoop (left : Expr) (s : List Char) : Except ParsingError (Expr × List Char) :=
  parseExprLoopF (s.length + 1) left s

/-! ## Unreachability of `UnexpectedEof`

The lexer iterator always yields `some` token, so every `None =>` arm in the
parser is dead; `noUEof` states that a parse result is not the
`UnexpectedEof` error. -/

def noUEof : Except ParsingError α → Bool
  | .error .unexpectedEof => false
  | _ => true

/-! ## Clock independence for keyword-free expressions -/

/-- `true` when the expression contains no `Keyword` node (`today`, `now`,
`tomorrow`, `yesterday`). -/
def noKeywordB : Expr → Bool
  | .keyword _ => false
  | .binOp l _ r => noKeywordB l && noKeywordB r
  | _ => true

/-! ## The claims -/

inductive VKind where
  | date
  | dateTime
  | duration
  | time
deriving DecidableEq, Repr

def Value.kind : Value → VKind
  | .date _ => .date
  | .dateTime _ => .dateTime
  | .duration _ => .duration
  | .time _ => .time

/-- Modelled from the spec: the dispatch table for `+` exactly as the
specification's operator table states it (`Date + Duration = Date`,
`DateTime + Duration = DateTime`, `Time + Duration = Time`,
`Duration + Duration = Duration`, nothing else). -/
def specAddTable : VKind → VKind → Option VKind
  | .date, .duration => some .date
  | .dateTime, .duration => some .dateTime
  | .time, .duration => some .time
  | .duration, .duration => some .duration
  | _, _ => none

/-- Modelled from the spec: the dispatch table for `-`: the `+` rows plus
`Date - Date = Duration`. -/
def specSubTable : VKind → VKind → Option VKind
  | .date, .duration => some .date
  | .dateTime, .duration => some .dateTime
  | .time, .duration => some .time
  | .duration, .duration => some .duration
  | .date, .date => some .duration
  | _, _ => none

/-! ## Theorems -/

theorem dropWhile_length_le (p : α → Bool) (l : List α) :
    (l.dropWhile p).length ≤ l.length := by
  induction l with
  | nil => simp [List.dropWhile]
  | cons a l ih =>
    rw [List.dropWhile]
    cases p a
    · simp
    · simp
      omega

theorem nextTokenBase_length_le (c : Char) (rest : List Char) :
    (nextTokenBase c rest).2.length ≤ rest.length := by
  rw [nextTokenBase]
  split
  · simp
  · split
    · simp
    · split
      · simp
      · split
        · simp
        · split
          · rw [List.dropWhile_cons_of_pos (by simp_all)]
            simpa using dropWhile_length_le _ rest
          · split
            · rw [List.dropWhile_cons_of_pos (by simp_all)]
              simpa using dropWhile_length_le _ rest
            · simp

theorem nextToken_length_le (s : List Char) : (nextToken s).2.length ≤ s.length := by
  match s with
  | [] => simp [nextToken]
  | c :: rest =>
    by_cases hsp : c = ' '
    · rw [nextToken, if_pos hsp]
      rcases heq : rest.dropWhile (fun d => isWhitespaceC d) with _ | ⟨c2, rest2⟩
      · simp
      · dsimp only
        have h1 : _ ≤ _ := dropWhile_length_le (fun d => isWhitespaceC d) rest
        rw [heq] at h1
        have h1a : rest2.length + 1 ≤ rest.length := by simpa using h1
        have h2 := nextTokenBase_length_le c2 rest2
        simp only [List.length_cons]
        omega
    · rw [nextToken, if_neg hsp]
      calc (nextTokenBase c rest).2.length ≤ rest.length := nextTokenBase_length_le c rest
        _ ≤ (c :: rest).length := by simp

/-- Whenever the produced token is not `Eof`, at least one input character
was consumed. -/
theorem nextToken_length_lt (s : List Char) (h : (nextToken s).1 ≠ Token.eof) :
    (nextToken s).2.length < s.length := by
  match s with
  | [] => simp [nextToken] at h
  | c :: rest =>
    by_cases hsp : c = ' '
    · rw [nextToken, if_pos hsp] at h ⊢
      rcases heq : rest.dropWhile (fun d => isWhitespaceC d) with _ | ⟨c2, rest2⟩
      · rw [heq] at h
        simp at h
      · rw [heq] at h
        dsimp only at h ⊢
        have h1 : _ ≤ _ := dropWhile_length_le (fun d => isWhitespaceC d) rest
        rw [heq] at h1
        have h1a : rest2.length + 1 ≤ rest.length := by simpa using h1
        have h2 := nextTokenBase_length_le c2 rest2
        simp only [List.length_cons]
        omega
    · rw [nextToken, if_neg hsp]
      calc (nextTokenBase c rest).2.length ≤ rest.length := nextTokenBase_length_le c rest
        _ < (c :: rest).length := by simp

theorem tokenizeListAux_fuel (fuel1 fuel2 : Nat) (s : List Char)
    (h1 : s.length < fuel1) (h2 : s.length < fuel2) :
    tokenizeListAux fuel1 s = tokenizeListAux fuel2 s := by
  induction fuel1 generalizing fuel2 s with
  | zero => omega
  | succ f1 ih =>
    match fuel2, h2 with
    | f2 + 1, h2 =>
      rw [tokenizeListAux, tokenizeListAux]
      by_cases he : (nextToken s).1 = Token.eof
      · simp [he]
      · have hlt := nextToken_length_lt s he
        rw [if_neg he, if_neg he, ih f2 (nextToken s).2 (by omega) (by omega)]

theorem tokenizeList_eq (s : List Char) :
    tokenizeList s =
      if (nextToken s).1 = Token.eof then []
      else (nextToken s).1 :: tokenizeList (nextToken s).2 := by
  rw [tokenizeList, tokenizeListAux]
  by_cases he : (nextToken s).1 = Token.eof
  · simp [he]
  · have hlt := nextToken_length_lt s he
    rw [if_neg he, if_neg he, tokenizeList,
      tokenizeListAux_fuel s.length ((nextToken s).2.length + 1) (nextToken s).2
        (by omega) (by omega)]

/-- Inversion: a non-empty token list pins down the first `next_token` call. -/
theorem tokenizeList_cons (s : List Char) (t : Token) (ts : List Token)
    (h : tokenizeList s = t :: ts) :
    (nextToken s).1 = t ∧ tokenizeList (nextToken s).2 = ts ∧ t ≠ Token.eof := by
  rw [tokenizeList_eq] at h
  split at h
  · exact absurd h (by simp)
  · rename_i hne
    injection h with h1 h2
    exact ⟨h1, h2, fun hc => hne (h1.trans hc)⟩

theorem tokenizeList_nil (s : List Char) (h : tokenizeList s = []) :
    (nextToken s).1 = Token.eof := by
  rw [tokenizeList_eq] at h
  split at h
  · assumption
  · exact absurd h (by simp)

/-- Two scanner states on which `next_token` agrees produce the same token
sequence. -/
theorem tokenizeList_congr (s s' : List Char) (h : nextToken s = nextToken s') :
    tokenizeList s = tokenizeList s' := by
  rw [tokenizeList_eq s, tokenizeList_eq s', h]

/-! ## Parser infrastructure lemmas: the scanner never grows, and fuel
`s.length + 1` always suffices for the `parse_expr` loop. -/

theorem expectNumber_len (s : List Char) (n : Int) (s1 : List Char)
    (h : expectNumber s = .ok (n, s1)) : s1.length ≤ s.length := by
  unfold expectNumber iterNext at h
  split at h
  · rename_i nA sA heq
    simp only [Except.ok.injEq, Prod.mk.injEq] at h
    rw [← h.2, ← ((Prod.mk.injEq _ _ _ _).mp heq).2]
    exact nextToken_length_le s
  · exact absurd h (by simp)
  · exact absurd h (by simp)

theorem expectToken_len (s : List Char) (t : Token) (err : ParsingError) (s1 : List Char)
    (h : expectToken s t err = .ok s1) : s1.length ≤ s.length := by
  unfold expectToken iterNext at h
  split at h
  · split at h
    · rename_i heq _
      simp only [Except.ok.injEq] at h
      rw [← h, ← ((Prod.mk.injEq _ _ _ _).mp heq).2]
      exact nextToken_length_le s
    · exact absurd h (by simp)
  · exact absurd h (by simp)

theorem parseIdent_len (s : List Char) (e : Expr) (s1 : List Char)
    (h : parseIdent s = .ok (e, s1)) : s1.length ≤ s.length := by
  unfold parseIdent iterNext at h
  split at h
  · rename_i str sA heq
    have hs : sA.length ≤ s.length := by
      rw [← ((Prod.mk.injEq _ _ _ _).mp heq).2]
      exact nextToken_length_le s
    split_ifs at h <;>
      first
      | (simp only [Except.ok.injEq, Prod.mk.injEq] at h
         rw [← h.2]
         exact hs)
      | exact absurd h (by simp)
  · exact absurd h (by simp)
  · exact absurd h (by simp)

theorem parseDuration_len (s : List Char) (v : Int) (e : Expr) (s1 : List Char)
    (h : parseDuration s v = .ok (e, s1)) : s1.length ≤ s.length := by
  unfold parseDuration iterNext at h
  split at h
  · rename_i str sA heq
    have hs : sA.length ≤ s.length := by
      rw [← ((Prod.mk.injEq _ _ _ _).mp heq).2]
      exact nextToken_length_le s
    split at h
    · exact absurd h (by simp)
    · simp only [Except.ok.injEq, Prod.mk.injEq] at h
      rw [← h.2]
      exact hs
  · exact absurd h (by simp)
  · exact absurd h (by simp)

theorem parseTime_len (s : List Char) (hour : Int) (e : Expr) (s1 : List Char)
    (h : parseTime s hour = .ok (e, s1)) : s1.length ≤ s.length := by
  unfold parseTime at h
  split at h
  · exact absurd h (by simp)
  · rename_i sA hA
    split at h
    · exact absurd h (by simp)
    · rename_i nB sB hB
      simp only [Except.ok.injEq, Prod.mk.injEq] at h
      calc s1.length = sB.length := by rw [h.2]
        _ ≤ sA.length := expectNumber_len _ _ _ hB
        _ ≤ s.length := expectToken_len _ _ _ _ hA

theorem parseDate_len (s : List Char) (year : Int) (e : Expr) (s1 : List Char)
    (h : parseDate s year = .ok (e, s1)) : s1.length ≤ s.length := by
  unfold parseDate at h
  split at h
  · exact absurd h (by simp)
  · rename_i sA hA
    split at h
    · exact absurd h (by simp)
    · rename_i mB sB hB
      split at h
      · exact absurd h (by simp)
      · rename_i sC hC
        split at h
        · exact absurd h (by simp)
        · rename_i dD sD hD
          have base : sD.length ≤ s.length :=
            calc sD.length ≤ sC.length := expectNumber_len _ _ _ hD
              _ ≤ sB.length := expectToken_len _ _ _ _ hC
              _ ≤ sA.length := expectNumber_len _ _ _ hB
              _ ≤ s.length := expectToken_len _ _ _ _ hA
          split at h
          · split at h
            · exact absurd h (by simp)
            · rename_i hE sE hEq
              split at h
              · exact absurd h (by simp)
              · rename_i sF hF
                split at h
                · exact absurd h (by simp)
                · rename_i mG sG hG
                  simp only [Except.ok.injEq, Prod.mk.injEq] at h
                  calc s1.length = sG.length := by rw [h.2]
                    _ ≤ sF.length := expectNumber_len _ _ _ hG
                    _ ≤ sE.length := expectToken_len _ _ _ _ hF
                    _ ≤ sD.length := expectNumber_len _ _ _ hEq
                    _ ≤ s.length := base
          · simp only [Except.ok.injEq, Prod.mk.injEq] at h
            rw [← h.2]
            exact base

theorem parseNumber_len (s : List Char) (e : Expr) (s1 : List Char)
    (h : parseNumber s = .ok (e, s1)) : s1.length ≤ s.length := by
  unfold parseNumber at h
  split at h
  · exact absurd h (by simp)
  · rename_i nA sA hA
    have base : sA.length ≤ s.length := expectNumber_len _ _ _ hA
    have hs2 : (iterNext sA).2.length ≤ sA.length := nextToken_length_le sA
    split at h
    · exact Nat.le_trans (parseDate_len _ _ _ _ h) base
    · exact Nat.le_trans (parseTime_len _ _ _ _ h) base
    · split at h
      · dsimp only at h
        split at h
        · simp only [Except.ok.injEq, Prod.mk.injEq] at h
          rw [← h.2]
          exact Nat.le_trans hs2 base
        · split at h
          · simp only [Except.ok.injEq, Prod.mk.injEq] at h
            rw [← h.2]
            exact Nat.le_trans hs2 base
          · exact absurd h (by simp)
      · split at h
        · dsimp only at h
          split at h
          · simp only [Except.ok.injEq, Prod.mk.injEq] at h
            rw [← h.2]
            exact Nat.le_trans hs2 base
          · split at h
            · simp only [Except.ok.injEq, Prod.mk.injEq] at h
              rw [← h.2]
              exact Nat.le_trans hs2 base
            · exact absurd h (by simp)
        · exact Nat.le_trans (parseDuration_len _ _ _ _ h) base
    · exact absurd h (by simp)
    · exact absurd h (by simp)

theorem parsePrimary_len (s : List Char) (e : Expr) (s1 : List Char)
    (h : parsePrimary s = .ok (e, s1)) : s1.length ≤ s.length := by
  unfold parsePrimary at h
  split at h
  · exact parseNumber_len _ _ _ h
  · exact parseIdent_len _ _ _ h
  · exact absurd h (by simp)
  · exact absurd h (by simp)

theorem parseExprLoopF_fuel (f1 f2 : Nat) (left : Expr) (s : List Char)
    (h1 : s.length < f1) (h2 : s.length < f2) :
    parseExprLoopF f1 left s = parseExprLoopF f2 left s := by
  induction f1 generalizing f2 left s with
  | zero => omega
  | succ g1 ih =>
    match f2, h2 with
    | g2 + 1, h2 =>
      rw [parseExprLoopF, parseExprLoopF]
      by_cases hp : peekTok s = some Token.plus ∨ peekTok s = some Token.minus
      · rw [if_pos hp, if_pos hp]
        have hne : (nextToken s).1 ≠ Token.eof := by
          rcases hp with hp | hp
          all_goals
            rw [peekTok, Option.some.injEq] at hp
            rw [hp]
            simp
        have hlt : (nextToken s).2.length < s.length := nextToken_length_lt s hne
        rcases hp with hp | hp
        all_goals rw [peekTok, Option.some.injEq] at hp
        · rw [iterNext, hp]
          dsimp only
          rcases hpp : parsePrimary (nextToken s).2 with e | ⟨right, s2⟩
          · rfl
          · have h2l : s2.length ≤ (nextToken s).2.length := parsePrimary_len _ _ _ hpp
            exact ih g2 _ s2 (by omega) (by omega)
        · rw [iterNext, hp]
          dsimp only
          rcases hpp : parsePrimary (nextToken s).2 with e | ⟨right, s2⟩
          · rfl
          · have h2l : s2.length ≤ (nextToken s).2.length := parsePrimary_len _ _ _ hpp
            exact ih g2 _ s2 (by omega) (by omega)
      · rw [if_neg hp, if_neg hp]

/-- Clean one-step unfolding of the `parse_expr` loop. -/
theorem parseExprLoop_eq (left : Expr) (s : List Char) :
    parseExprLoop left s =
      if peekTok s = some Token.plus ∨ peekTok s = some Token.minus then
        match iterNext s with
        | (some .plus, s1) =>
          match parsePrimary s1 with
          | .error e => .error e
          | .ok (right, s2) => parseExprLoop (.binOp left .add right) s2
        | (some .minus, s1) =>
          match parsePrimary s1 with
          | .error e => .error e
          | .ok (right, s2) => parseExprLoop (.binOp left .sub right) s2
        | (some t, _) => .error (.unexpectedToken t)
        | (none, _) => .error .unexpectedEof
      else .ok (left, s) := by
  rw [parseExprLoop, parseExprLoopF]
  by_cases hp : peekTok s = some Token.plus ∨ peekTok s = some Token.minus
  · rw [if_pos hp, if_pos hp]
    have hne : (nextToken s).1 ≠ Token.eof := by
      rcases hp with hp | hp
      all_goals
        rw [peekTok, Option.some.injEq] at hp
        rw [hp]
        simp
    have hlt : (nextToken s).2.length < s.length := nextToken_length_lt s hne
    rcases hp with hp | hp
    all_goals rw [peekTok, Option.some.injEq] at hp
    · rw [iterNext, hp]
      dsimp only
      rcases hpp : parsePrimary (nextToken s).2 with e | ⟨right, s2⟩
      · rfl
      · have h2l : s2.length ≤ (nextToken s).2.length := parsePrimary_len _ _ _ hpp
        exact parseExprLoopF_fuel s.length (s2.length + 1) (.binOp left .add right) s2
          (by omega) (by omega)
    · rw [iterNext, hp]
      dsimp only
      rcases hpp : parsePrimary (nextToken s).2 with e | ⟨right, s2⟩
      · rfl
      · have h2l : s2.length ≤ (nextToken s).2.length := parsePrimary_len _ _ _ hpp
        exact parseExprLoopF_fuel s.length (s2.length + 1) (.binOp left .sub right) s2
          (by omega) (by omega)
  · rw [if_neg hp, if_neg hp]

theorem parseExpr_eq (s : List Char) :
    parseExpr s =
      match parsePrimary s with
      | .error e => .error e
      | .ok (left, s1) => parseExprLoop left s1 := by
  rw [parseExpr]
  rcases parsePrimary s with e | ⟨left, s1⟩
  · rfl
  · rfl

theorem noUEof_of_eq {α : Type} (r : Except ParsingError α) (e : ParsingError)
    (hr : noUEof r = true) (h : r = .error e) : noUEof (Except.error e : Except ParsingError β) = true := by
  rw [h] at hr
  cases e
  all_goals simp_all [noUEof]

theorem expectNumber_noUEof (s : List Char) : noUEof (expectNumber s) = true := by
  unfold expectNumber iterNext
  split
  · rfl
  · rfl
  · rfl

theorem expectToken_noUEof (s : List Char) (t : Token) (err : ParsingError) :
    noUEof (expectToken s t err) = true := by
  unfold expectToken iterNext
  split
  · split
    · rfl
    · rfl
  · rename_i heq
    exact absurd (congrArg Prod.fst heq) (by simp)

theorem unitTryFrom_noUEof (u : String) : noUEof (unitTryFrom u) = true := by
  unfold unitTryFrom
  split_ifs
  all_goals rfl

theorem parseIdent_noUEof (s : List Char) : noUEof (parseIdent s) = true := by
  unfold parseIdent iterNext
  split
  · split_ifs
    all_goals rfl
  · rfl
  · rfl

theorem parseDuration_noUEof (s : List Char) (v : Int) :
    noUEof (parseDuration s v) = true := by
  unfold parseDuration iterNext
  split
  · rename_i str sA heq
    split
    · rename_i e hu
      exact noUEof_of_eq _ _ (unitTryFrom_noUEof str) hu
    · rfl
  · rfl
  · rfl

theorem parseTime_noUEof (s : List Char) (hour : Int) :
    noUEof (parseTime s hour) = true := by
  unfold parseTime
  split
  · rename_i e hA
    exact noUEof_of_eq _ _ (expectToken_noUEof s .colon .expectedColon) hA
  · rename_i sA hA
    split
    · rename_i e hB
      exact noUEof_of_eq _ _ (expectNumber_noUEof sA) hB
    · rfl

theorem parseDate_noUEof (s : List Char) (year : Int) :
    noUEof (parseDate s year) = true := by
  unfold parseDate
  split
  · rename_i e hA
    exact noUEof_of_eq _ _ (expectToken_noUEof s .slash .expectedSlash) hA
  · rename_i sA hA
    split
    · rename_i e hB
      exact noUEof_of_eq _ _ (expectNumber_noUEof sA) hB
    · rename_i mB sB hB
      split
      · rename_i e hC
        exact noUEof_of_eq _ _ (expectToken_noUEof sB .slash .expectedSlash) hC
      · rename_i sC hC
        split
        · rename_i e hD
          exact noUEof_of_eq _ _ (expectNumber_noUEof sC) hD
        · rename_i dD sD hD
          split
          · split
            · rename_i e hE
              exact noUEof_of_eq _ _ (expectNumber_noUEof sD) hE
            · rename_i hE sE hEq
              split
              · rename_i e hF
                exact noUEof_of_eq _ _ (expectToken_noUEof sE .colon .expectedColon) hF
              · rename_i sF hF
                split
                · rename_i e hG
                  exact noUEof_of_eq _ _ (expectNumber_noUEof sF) hG
                · rfl
          · rfl

theorem parseNumber_noUEof (s : List Char) : noUEof (parseNumber s) = true := by
  unfold parseNumber
  split
  · rename_i e hA
    exact noUEof_of_eq _ _ (expectNumber_noUEof s) hA
  · rename_i nA sA hA
    rw [peekTok]
    split
    · exact parseDate_noUEof sA nA
    · exact parseTime_noUEof sA nA
    · split
      · dsimp only
        split_ifs
        all_goals rfl
      · split
        · dsimp only
          split_ifs
          all_goals rfl
        · exact parseDuration_noUEof sA nA
    · rfl
    · rename_i heq
      exact absurd heq (by simp)

theorem parsePrimary_noUEof (s : List Char) : noUEof (parsePrimary s) = true := by
  unfold parsePrimary
  rw [peekTok]
  split
  · exact parseNumber_noUEof s
  · exact parseIdent_noUEof s
  · rfl
  · rename_i heq
    exact absurd heq (by simp)

theorem parseExprLoopF_noUEof (fuel : Nat) (left : Expr) (s : List Char) :
    noUEof (parseExprLoopF fuel left s) = true := by
  induction fuel generalizing left s with
  | zero => rfl
  | succ f ih =>
    rw [parseExprLoopF]
    split
    · rw [iterNext]
      split
      · rename_i s1 heq
        split
        · rename_i e hpp
          exact noUEof_of_eq _ _ (parsePrimary_noUEof _) hpp
        · exact ih _ _
      · rename_i s1 heq
        split
        · rename_i e hpp
          exact noUEof_of_eq _ _ (parsePrimary_noUEof _) hpp
        · exact ih _ _
      · rfl
      · rename_i heq
        exact absurd (congrArg Prod.fst heq) (by simp)
    · rfl

theorem parseExpr_noUEof (s : List Char) : noUEof (parseExpr s) = true := by
  rw [parseExpr]
  split
  · rename_i e hA
    exact noUEof_of_eq _ _ (parsePrimary_noUEof s) hA
  · exact parseExprLoopF_noUEof _ _ _

theorem parse_noUEof (s : List Char) : noUEof (parse s) = true := by
  rw [parse]
  split
  · rename_i e hA
    exact noUEof_of_eq _ _ (parseExpr_noUEof s) hA
  · rfl

theorem eval_clock_indep (e : Expr) (h : noKeywordB e = true) (c1 c2 : TDateTime) :
    eval c1 e = eval c2 e := by
  induction e with
  | date y m d => rfl
  | time hh mm => rfl
  | dateTime y m d hh mm => rfl
  | keyword k => exact absurd h (by simp [noKeywordB])
  | duration v u => rfl
  | binOp l op r ihl ihr =>
    rw [noKeywordB, Bool.and_eq_true] at h
    rw [eval, eval, ihl h.1, ihr h.2]

/-! ## Lexing digit and whitespace runs -/

theorem digit_not_special (c : Char) (h : isDigitC c = true) :
    c ≠ '+' ∧ c ≠ '-' ∧ c ≠ ':' ∧ c ≠ '/' ∧ c ≠ ' ' := by
  refine ⟨?_, ?_, ?_, ?_, ?_⟩
  all_goals
    rintro rfl
    exact absurd h (by decide)

theorem takeWhile_all_append (p : Char → Bool) (l rest : List Char)
    (hall : ∀ c ∈ l, p c = true)
    (hrest : ∀ c, rest.head? = some c → p c = false) :
    (l ++ rest).takeWhile p = l ∧ (l ++ rest).dropWhile p = rest := by
  induction l with
  | nil =>
    simp only [List.nil_append]
    match rest with
    | [] => simp [List.takeWhile, List.dropWhile]
    | c :: rs =>
      have hc : p c = false := hrest c rfl
      rw [List.takeWhile_cons, List.dropWhile_cons, hc]
      simp
  | cons a l ih =>
    have ha : p a = true := hall a (by simp)
    have ih2 := ih (fun c hc => hall c (by simp [hc]))
    rw [List.cons_append, List.takeWhile_cons, List.dropWhile_cons, ha]
    simp only [if_true]
    exact ⟨by rw [ih2.1], by rw [ih2.2]⟩

/-- Lexing a digit run: the whole run is consumed; the token is its numeric
value when it fits in `i64`, and `Illegal` otherwise. -/
theorem nextToken_digits (ds rest : List Char) (hne : ds ≠ [])
    (hall : ∀ c ∈ ds, isDigitC c = true)
    (hrest : ∀ c, rest.head? = some c → isDigitC c = false) :
    nextToken (ds ++ rest) =
      (if digitsVal ds ≤ i64MaxNat then Token.number (Int.ofNat (digitsVal ds))
       else Token.illegal, rest) := by
  match ds, hne with
  | d :: ds1, _ =>
    have hd : isDigitC d = true := hall d (by simp)
    obtain ⟨hd1, hd2, hd3, hd4, hd5⟩ := digit_not_special d hd
    have htake := takeWhile_all_append (fun c => isDigitC c) (d :: ds1) rest hall hrest
    rw [List.cons_append, nextToken, if_neg hd5, nextTokenBase,
      if_neg hd1, if_neg hd2, if_neg hd3, if_neg hd4, if_pos hd]
    rw [← List.cons_append, htake.1, htake.2]

/-- A whitespace run after a space is skipped entirely. -/
theorem nextToken_space_run (ws rest : List Char)
    (hall : ∀ c ∈ ws, isWhitespaceC c = true)
    (hrest : ∀ c, rest.head? = some c → isWhitespaceC c = false) :
    nextToken ((' ' :: ws) ++ rest) = nextToken rest := by
  have hdrop := (takeWhile_all_append (fun c => isWhitespaceC c) ws rest hall hrest).2
  rw [List.cons_append, nextToken, if_pos rfl, hdrop]
  match rest with
  | [] => rw [nextToken]
  | c :: rs =>
    have hc : isWhitespaceC c = false := hrest c rfl
    have hcsp : c ≠ ' ' := by
      rintro rfl
      exact absurd hc (by decide)
    rw [nextToken, if_neg hcsp]

/-! ## Decimal rendering facts (for the fraction-stripping property) -/

theorem digitChar_ne_zero (k : Nat) (h1 : 1 ≤ k) (h2 : k ≤ 9) : digitChar k ≠ '0' := by
  interval_cases k
  all_goals decide

theorem natDecAux_head (f : Nat) :
    ∀ (n : Nat) (acc : List Char), 1 ≤ n → n < 10 ^ f →
      ∃ c cs, natDecAux f n acc = c :: cs ∧ c ≠ '0' := by
  induction f with
  | zero =>
    intro n acc h1 h2
    omega
  | succ g ih =>
    intro n acc h1 h2
    rw [natDecAux]
    by_cases hn : n < 10
    · rw [if_pos hn]
      refine ⟨digitChar (n % 10), acc, rfl, ?_⟩
      rw [Nat.mod_eq_of_lt hn]
      exact digitChar_ne_zero n h1 (by omega)
    · rw [if_neg hn]
      refine ih (n / 10) _ ?_ ?_
      · omega
      · rw [pow_succ] at h2
        omega

theorem natDecL_head (n : Nat) (h1 : 1 ≤ n) :
    ∃ c cs, natDecL n = c :: cs ∧ c ≠ '0' := by
  refine natDecAux_head (n + 1) n [] h1 ?_
  calc n < 10 ^ n := Nat.lt_pow_self (by omega) n
    _ ≤ 10 ^ (n + 1) := Nat.pow_le_pow_right (by omega) (by omega)

theorem head_dropWhile_false (p : α → Bool) (l : List α) (c : α) (cs : List α)
    (h : l.dropWhile p = c :: cs) : p c = false := by
  induction l with
  | nil => simp [List.dropWhile] at h
  | cons a l ih =>
    rw [List.dropWhile_cons] at h
    by_cases hp : p a = true
    · rw [if_pos hp] at h
      exact ih h
    · rw [if_neg hp] at h
      injection h with h1 h2
      rw [← h1]
      exact Bool.not_eq_true _ ▸ hp

/-- The fraction printed for a non-zero nanosecond count is non-empty and
does not end in a zero digit. -/
theorem stripTrailingZeros_pad9 (n : Nat) (hn : n ≠ 0) :
    stripTrailingZeros (pad9 n) ≠ [] ∧
      ∀ c, (stripTrailingZeros (pad9 n)).getLast? = some c → c ≠ '0' := by
  obtain ⟨c, cs, hdec, hc⟩ := natDecL_head n (by omega)
  have hmem : c ∈ (pad9 n).reverse := by
    rw [pad9, padZeros, hdec]
    simp
  have hne : (pad9 n).reverse.dropWhile (fun x => x = '0') ≠ [] := by
    intro hnil
    rw [List.dropWhile_eq_nil_iff] at hnil
    have := hnil c hmem
    simp at this
    exact hc this
  constructor
  · rw [stripTrailingZeros]
    intro hnil
    rw [List.reverse_eq_nil_iff] at hnil
    exact hne hnil
  · intro d hd
    rw [stripTrailingZeros, List.getLast?_reverse] at hd
    match hdw : (pad9 n).reverse.dropWhile (fun x => x = '0') with
    | [] => exact absurd hdw hne
    | e :: es =>
      have hpe := head_dropWhile_false (fun x => x = '0') _ e es hdw
      rw [hdw] at hd
      simp only [List.head?_cons, Option.some.injEq] at hd
      rw [← hd]
      intro hcon
      rw [hcon] at hpe
      simp at hpe

/-- C1 (amended): `Value::add`/`Value::sub` follow the spec's dispatch table
exactly: a kind pair outside the table always produces the `InvalidOp` error
carrying the operator and both operand values; a pair inside the table never
produces an evaluation error, and any value it produces has the kind the
table assigns — but the in-table arithmetic is performed by the `time`
crate's panicking operators, so on range overflow it panics (`none`) instead
of yielding a value.  The final conjunct: the `InvalidOp` message names the
operator and both operand type names. -/
theorem claim_C1 :
    (∀ v w : Value, specAddTable v.kind w.kind = none →
        v.add w = some (.error (.invalidOp .add v w))) ∧
    (∀ v w r : Value, ∀ k, specAddTable v.kind w.kind = some k →
        v.add w = some (.ok r) → r.kind = k) ∧
    (∀ v w : Value, specAddTable v.kind w.kind ≠ none →
        ∀ e, v.add w ≠ some (.error e)) ∧
    (∀ v w : Value, specSubTable v.kind w.kind = none →
        v.sub w = some (.error (.invalidOp .sub v w))) ∧
    (∀ v w r : Value, ∀ k, specSubTable v.kind w.kind = some k →
        v.sub w = some (.ok r) → r.kind = k) ∧
    (∀ v w : Value, specSubTable v.kind w.kind ≠ none →
        ∀ e, v.sub w ≠ some (.error e)) ∧
    (∀ (op : Op) (l r : Value),
        EvalError.render (.invalidOp op l r) =
          "invalid operation " ++ qt ++ op.render ++ qt ++ " for " ++ qt ++
            l.typeName ++ qt ++ " and " ++ qt ++ r.typeName ++ qt) := by
  refine ⟨?_, ?_, ?_, ?_, ?_, ?_, ?_⟩
  · intro v w h
    cases v <;> cases w <;> simp_all [Value.add, Value.kind, specAddTable]
  · intro v w r k h1 h2
    cases v <;> cases w <;>
      simp_all [Value.add, Value.kind, specAddTable, Option.map_eq_some'] <;>
      (obtain ⟨a, ha, rfl⟩ := h2) <;> simp [Value.kind]
  · intro v w h1 e h2
    cases v <;> cases w <;>
      simp_all [Value.add, Value.kind, specAddTable, Option.map_eq_some']
  · intro v w h
    cases v <;> cases w <;> simp_all [Value.sub, Value.kind, specSubTable]
  · intro v w r k h1 h2
    cases v <;> cases w <;>
      simp_all [Value.sub, Value.kind, specSubTable, Option.map_eq_some'] <;>
      (obtain ⟨a, ha, rfl⟩ := h2) <;> simp [Value.kind]
  · intro v w h1 e h2
    cases v <;> cases w <;>
      simp_all [Value.sub, Value.kind, specSubTable, Option.map_eq_some']
  · intro op l r
    rfl

/-- C1 counterexample to the claim as stated: `Date + Duration` does not
always yield a `Date` — at `9999-12-31 + 1 day` the `time` crate's `+`
panics (modelled `none`), because the result is outside the supported year
range. -/
theorem claim_C1_counterexample :
    Value.add (.date ⟨9999, 12, 31⟩) (.duration (durDays 1)) = none := by decide

/-- C1 witness: a kind pair outside the table (`Time + Date`) yields exactly
the `InvalidOp` error carrying the operator and both operands. -/
theorem claim_C1_witness :
    Value.add (.time ⟨2, 0, 0, 0⟩) (.date ⟨2025, 9, 27⟩) =
      some (.error (.invalidOp .add (.time ⟨2, 0, 0, 0⟩) (.date ⟨2025, 9, 27⟩))) :=
  claim_C1.1 _ _ (by decide)

/-- C2 (amended): a date literal with month outside 1..=12, an invalid
day-of-month (leap years included), or year above 9999 always evaluates to
`InvalidMonth` or `InvalidDate`; for a *datetime* literal the same holds
with the year first wrapped by the `year as i32` cast, so "year out of
range" means the wrapped year lies outside `-9999..=9999`. -/
theorem claim_C2 :
    (∀ y m d : Nat, y < 2 ^ 32 → m < 2 ^ 8 → d < 2 ^ 8 →
        (m < 1 ∨ 12 < m ∨ 9999 < y ∨ d < 1 ∨ daysInMonth (y : Int) m < d) →
        ∀ clock, ∃ e, eval clock (.date y m d) = some (.error e) ∧
          (e = .invalidMonth m ∨ e = .invalidDate y m d)) ∧
    (∀ y m d hh mi : Nat, y < 2 ^ 32 → m < 2 ^ 8 → d < 2 ^ 8 →
        (m < 1 ∨ 12 < m ∨ i32wrapOfU32 y < -9999 ∨ 9999 < i32wrapOfU32 y ∨
          d < 1 ∨ daysInMonth (i32wrapOfU32 y) m < d) →
        ∀ clock, ∃ e, eval clock (.dateTime y m d hh mi) = some (.error e) ∧
          (e = .invalidMonth m ∨ e = .invalidDate y m d)) := by
  constructor
  · intro y m d hy hm hd hcase clock
    rw [eval, fromDate, monthFromU8]
    by_cases hmv : 1 ≤ m ∧ m ≤ 12
    · rw [if_pos hmv]
      dsimp only
      by_cases hbig : 2 ^ 31 ≤ y
      · rw [if_pos hbig]
        exact ⟨.invalidDate y m d, rfl, Or.inr rfl⟩
      · rw [if_neg hbig]
        have hX : ¬(-9999 ≤ (y : Int) ∧ (y : Int) ≤ 9999 ∧ 1 ≤ d ∧
            d ≤ daysInMonth (y : Int) m) := by
          rintro ⟨ha, hb, hc, hdd⟩
          rcases hcase with h | h | h | h | h <;> omega
        rw [fromCalendarDate, if_neg hX]
        exact ⟨.invalidDate y m d, rfl, Or.inr rfl⟩
    · rw [if_neg hmv]
      exact ⟨.invalidMonth m, rfl, Or.inl rfl⟩
  · intro y m d hh mi hy hm hd hcase clock
    rw [eval, fromDatetime, monthFromU8]
    by_cases hmv : 1 ≤ m ∧ m ≤ 12
    · rw [if_pos hmv]
      dsimp only
      have hX : ¬(-9999 ≤ i32wrapOfU32 y ∧ i32wrapOfU32 y ≤ 9999 ∧ 1 ≤ d ∧
          d ≤ daysInMonth (i32wrapOfU32 y) m) := by
        rintro ⟨ha, hb, hc, hdd⟩
        rcases hcase with h | h | h | h | h | h <;> omega
      rw [fromCalendarDate, if_neg hX]
      exact ⟨.invalidDate y m d, rfl, Or.inr rfl⟩
    · rw [if_neg hmv]
      exact ⟨.invalidMonth m, rfl, Or.inl rfl⟩

/-- C2 counterexample to the claim as stated: the datetime literal with
`u32` year 4294967295 — far outside any valid year range — evaluates
*successfully*, because `from_datetime` wraps the year with `as i32` to
`-1`, which passes the range check. -/
theorem claim_C2_counterexample :
    9999 < 4294967295 ∧
      eval sampleClock (.dateTime 4294967295 1 1 0 0) =
        some (.ok (.dateTime ⟨⟨-1, 1, 1⟩, ⟨0, 0, 0, 0⟩, 0⟩)) := by decide

/-- C2 witness: month 13 on a date literal gives the structured
`InvalidMonth` error. -/
theorem claim_C2_witness :
    ∃ e, eval sampleClock (.date 2025 13 1) = some (.error e) ∧
      (e = .invalidMonth 13 ∨ e = .invalidDate 2025 13 1) :=
  claim_C2.1 2025 13 1 (by decide) (by decide) (by decide) (by decide) sampleClock

/-- C3 (amended): `run` returns a `Result` on every parse failure and on
every duration literal of any `i64` magnitude and unit (the per-unit
conversion multiplies with 64-bit wraparound, as in a release build); it is
*not* total on all inputs — binary date/datetime/duration arithmetic that
overflows the supported range panics, see `claim_C3_counterexample`. -/
theorem claim_C3 :
    (∀ (clock : TDateTime) (s : List Char) (e : ParsingError), parse s = .error e →
        run clock s = some (.error ("failed to parse expression: " ++ e.render))) ∧
    (∀ (clock : TDateTime) (s : List Char) (v : Int) (u : TimeUnit),
        parse s = .ok (.duration v u) →
        ∃ o, run clock s = some (.ok o)) := by
  constructor
  · intro clock s e h
    rw [run, h]
  · intro clock s v u h
    rw [run, h]
    exact ⟨_, rfl⟩

/-- C3 counterexample to the claim as stated: `run` does not always return a
`Result` — on `9999/12/31 + 1d` the `Date + Duration` arithmetic overflows
the supported year range and the `time` crate operator panics, aborting the
process (modelled `none`). -/
theorem claim_C3_counterexample :
    run sampleClock ("9999/12/31 + 1d".data) = none := by decide

/-- C3 witness: the duration literal `i64::MAX` years evaluates to an `Ok`
result (the conversion wraps instead of crashing). -/
theorem claim_C3_witness :
    ∃ o, run sampleClock ("9223372036854775807y".data) = some (.ok o) :=
  claim_C3.2 sampleClock _ 9223372036854775807 .years (by decide)

/-- C9: on any input whose parsed expression contains no keyword node, `run`
does not depend on the wall clock: evaluation of every other node is a pure
function of the expression, so two runs with the same input agree. -/
theorem claim_C9 (c1 c2 : TDateTime) (s : List Char) (e : Expr)
    (hp : parse s = .ok e) (hk : noKeywordB e = true) : run c1 s = run c2 s := by
  rw [run, run, hp]
  dsimp only
  rw [eval_clock_indep e hk c1 c2]

/-- C9 witness: `2h + 30m` runs to the same result under two different
clocks. -/
theorem claim_C9_witness :
    run sampleClock ("2h + 30m".data) = run sampleClock2 ("2h + 30m".data) :=
  claim_C9 sampleClock sampleClock2 _
    (.binOp (.duration 2 .hours) .add (.duration 30 .minutes)) (by decide) (by decide)

/-- C10: the parser can never produce the `UnexpectedEof` error through the
public pipeline — the lexer iterator always yields a token (`Eof` at end of
input), so exhausted input surfaces as a different error; in particular the
empty input fails with the unexpected-token error for `Eof`. -/
theorem claim_C10 :
    (∀ s, noUEof (parse s) = true) ∧
    (∀ clock : TDateTime, run clock ("".data) =
        some (.error ("failed to parse expression: unexpected token " ++
          qt ++ "Eof" ++ qt))) := by
  constructor
  · exact parse_noUEof
  · intro clock
    rfl

/-- C5 (amended): the tokenizer skips whitespace only when the run starts
with a space character, but it then silently consumes the *entire* following
`char::is_whitespace` run — tabs and newlines included; a character that is
not `+`, `-`, `:`, `/`, a space, an ASCII digit or an ASCII letter, and is
not consumed inside such a run, yields an `Illegal` token. -/
theorem claim_C5 :
    (∀ ws rest : List Char, (∀ c ∈ ws, isWhitespaceC c = true) →
        (∀ c, rest.head? = some c → isWhitespaceC c = false) →
        tokenizeList ((' ' :: ws) ++ rest) = tokenizeList rest) ∧
    (∀ (c : Char) (rest : List Char), c ≠ '+' → c ≠ '-' → c ≠ ':' → c ≠ '/' →
        c ≠ ' ' → isDigitC c = false → isAlphaC c = false →
        nextToken (c :: rest) = (.illegal, rest)) := by
  constructor
  · intro ws rest hall hrest
    exact tokenizeList_congr _ _ (nextToken_space_run ws rest hall hrest)
  · intro c rest h1 h2 h3 h4 h5 h6 h7
    rw [nextToken, if_neg h5, nextTokenBase, if_neg h1, if_neg h2, if_neg h3,
      if_neg h4, if_neg (by simp [h6]), if_neg (by simp [h7])]

/-- C5 counterexample to the claim as stated: a tab does *not* always yield
an `Illegal` token — after a space the tokenizer silently swallows it, so
`" \t1"` tokenizes to just `Number(1)` with no `Illegal` anywhere. -/
theorem claim_C5_counterexample :
    tokenizeList (" \t1".data) = [Token.number 1] ∧
      Token.illegal ∉ tokenizeList (" \t1".data) := by decide

/-- C5 witness: a tab not preceded by a space yields `Illegal`. -/
theorem claim_C5_witness : nextToken ("\t".data) = (Token.illegal, []) :=
  claim_C5.2 (Char.ofNat 9) [] (by decide) (by decide) (by decide) (by decide)
    (by decide) (by decide) (by decide)

/-- C6 (amended): `write_time` prints `HH:MM`; the seconds field is
appended when the seconds component *or* the sub-second nanoseconds are
non-zero (not only when seconds are non-zero, see the counterexample); the
fractional part is appended only when the nanoseconds are non-zero, printed
at nanosecond precision with trailing zero digits stripped (so it is
non-empty and never ends in `0`); nanosecond value 120000000 renders as
`.12`. -/
theorem claim_C6 :
    (∀ h m : Nat, writeTime ⟨h, m, 0, 0⟩ = pad2 h ++ ":" ++ pad2 m) ∧
    (∀ h m s : Nat, s ≠ 0 →
        writeTime ⟨h, m, s, 0⟩ = pad2 h ++ ":" ++ pad2 m ++ ":" ++ pad2 s) ∧
    (∀ h m s n : Nat, n ≠ 0 →
        writeTime ⟨h, m, s, n⟩ =
          pad2 h ++ ":" ++ pad2 m ++ ":" ++ pad2 s ++ "." ++
            String.mk (stripTrailingZeros (pad9 n)) ∧
        stripTrailingZeros (pad9 n) ≠ [] ∧
        (∀ c, (stripTrailingZeros (pad9 n)).getLast? = some c → c ≠ '0')) ∧
    writeTime ⟨2, 0, 30, 120000000⟩ = "02:00:30.12" := by
  refine ⟨?_, ?_, ?_, by decide⟩
  · intro h m
    rw [writeTime]
    simp
  · intro h m s hs
    rw [writeTime]
    simp only [ne_eq]
    rw [if_pos (by simp [hs]), if_neg (by simp)]
    simp [String.append_assoc]
  · intro h m s n hn
    obtain ⟨hne, hlast⟩ := stripTrailingZeros_pad9 n hn
    refine ⟨?_, hne, hlast⟩
    rw [writeTime]
    simp only [ne_eq]
    rw [if_pos (by simp [hn]), if_pos (by simp [hn])]
    simp [String.append_assoc]

/-- C6 counterexample to the claim as stated: the seconds field is *not*
printed only when seconds are non-zero — a time with zero seconds but
non-zero nanoseconds prints a `:00` seconds field followed by the
fraction. -/
theorem claim_C6_counterexample :
    writeTime ⟨0, 0, 0, 500000000⟩ = "00:00:00.5" := by decide

/-- C6 witness: a time with non-zero seconds and zero nanoseconds prints
`HH:MM:SS` with no fractional suffix. -/
theorem claim_C6_witness :
    writeTime ⟨5, 7, 9, 0⟩ = pad2 5 ++ ":" ++ pad2 7 ++ ":" ++ pad2 9 :=
  claim_C6.2.1 5 7 9 (by decide)

/-- C7: a digit run whose value exceeds `i64::MAX` lexes to the `Illegal`
token (the whole run is consumed, no crash), and running such an input
through the pipeline returns the parse-stage error for the `Illegal`
token. -/
theorem claim_C7 :
    (∀ ds rest : List Char, ds ≠ [] → (∀ c ∈ ds, isDigitC c = true) →
        (∀ c, rest.head? = some c → isDigitC c = false) → i64MaxNat < digitsVal ds →
        nextToken (ds ++ rest) = (.illegal, rest)) ∧
    (∀ (clock : TDateTime) (ds : List Char), ds ≠ [] →
        (∀ c ∈ ds, isDigitC c = true) → i64MaxNat < digitsVal ds →
        run clock ds = some (.error ("failed to parse expression: unexpected token " ++
          qt ++ "Illegal" ++ qt))) := by
  have part1 : ∀ ds rest : List Char, ds ≠ [] → (∀ c ∈ ds, isDigitC c = true) →
      (∀ c, rest.head? = some c → isDigitC c = false) → i64MaxNat < digitsVal ds →
      nextToken (ds ++ rest) = (.illegal, rest) := by
    intro ds rest hne hall hrest hbig
    rw [nextToken_digits ds rest hne hall hrest, if_neg (by omega)]
  refine ⟨part1, ?_⟩
  intro clock ds hne hall hbig
  have hnt : nextToken ds = (.illegal, []) := by
    have := part1 ds [] hne hall (by intro c hc; simp at hc) hbig
    rwa [List.append_nil] at this
  have hparse : parse ds = .error (.unexpectedToken .illegal) := by
    rw [parse, parseExpr, parsePrimary, peekTok, hnt]
  rw [run, hparse]
  rfl

/-- C7 witness: a twenty-digit number is tokenized as `Illegal` and the
pipeline reports the parse error. -/
theorem claim_C7_witness :
    run sampleClock ("99999999999999999999".data) =
      some (.error ("failed to parse expression: unexpected token " ++
        qt ++ "Illegal" ++ qt)) :=
  claim_C7.2 sampleClock _ (by decide) (by decide) (by decide)

/-- The `parse_expr` loop exits immediately when the next token is `Eof`. -/
theorem parseExprLoop_eof (left : Expr) (s : List Char)
    (h : (nextToken s).1 = Token.eof) : parseExprLoop left s = .ok (left, s) := by
  rw [parseExprLoop_eq, if_neg]
  rw [peekTok, h]
  simp

/-- C4: a `NUMBER` followed immediately by `am` or `pm` parses as an
hour-only `Time` literal with minute 0: under `am`, 1..=11 map to
themselves and 12 maps to hour 0; under `pm`, 1..=11 map to hour+12 and 12
maps to hour 12; every other numeric value is the `InvalidTime` parse
error, so `34pm` and `0am` fail at parse time. -/
theorem claim_C4 :
    (∀ (s : List Char) (n : Int), tokenizeList s = [.number n, .ident "am"] →
        parse s =
          (if 1 ≤ n ∧ n ≤ 11 then .ok (.time n.toNat 0)
           else if n = 12 then .ok (.time 0 0)
           else .error (.invalidTime (toString n ++ " am")))) ∧
    (∀ (s : List Char) (n : Int), tokenizeList s = [.number n, .ident "pm"] →
        parse s =
          (if 1 ≤ n ∧ n ≤ 11 then .ok (.time (n.toNat + 12) 0)
           else if n = 12 then .ok (.time 12 0)
           else .error (.invalidTime (toString n ++ " pm")))) ∧
    (∀ clock : TDateTime, run clock ("34pm".data) =
        some (.error ("failed to parse expression: invalid time " ++ qt ++ "34 pm" ++ qt))) ∧
    (∀ clock : TDateTime, run clock ("0am".data) =
        some (.error ("failed to parse expression: invalid time " ++ qt ++ "0 am" ++ qt))) := by
  refine ⟨?_, ?_, fun clock => rfl, fun clock => rfl⟩
  · intro s n h
    obtain ⟨ht1, h2, -⟩ := tokenizeList_cons _ _ _ h
    generalize hg1 : (nextToken s).2 = s1 at h2
    obtain ⟨ht2, h3, -⟩ := tokenizeList_cons _ _ _ h2
    generalize hg2 : (nextToken s1).2 = s2 at h3
    have ht3 : (nextToken s2).1 = Token.eof := tokenizeList_nil _ h3
    have hen : expectNumber s = .ok (n, s1) := by
      rw [expectNumber, iterNext, ht1, hg1]
    have hpn : parseNumber s =
        (if 1 ≤ n ∧ n ≤ 11 then .ok (.time (u8cast n) 0, s2)
         else if n = 12 then .ok (.time 0 0, s2)
         else .error (.invalidTime (toString n ++ " am"))) := by
      rw [parseNumber, hen]
      dsimp only
      rw [peekTok, ht2]
      dsimp only
      rw [if_pos rfl, iterNext, hg2]
    have hpp : parsePrimary s = parseNumber s := by
      rw [parsePrimary, peekTok, ht1]
    by_cases h11 : 1 ≤ n ∧ n ≤ 11
    · have hcast : u8cast n = n.toNat := by
        unfold u8cast
        rw [show (2 : Int) ^ 8 = 256 by norm_num, show n.emod 256 = n % 256 from rfl]
        omega
      rw [if_pos h11]
      have hpe : parseExpr s = .ok (.time (u8cast n) 0, s2) := by
        rw [parseExpr_eq, hpp, hpn, if_pos h11]
        exact parseExprLoop_eof _ _ ht3
      rw [parse, hpe, hcast]
    · rw [if_neg h11]
      by_cases h12 : n = 12
      · rw [if_pos h12]
        have hpe : parseExpr s = .ok (.time 0 0, s2) := by
          rw [parseExpr_eq, hpp, hpn, if_neg h11, if_pos h12]
          exact parseExprLoop_eof _ _ ht3
        rw [parse, hpe]
      · rw [if_neg h12]
        have hpe : parseExpr s = .error (.invalidTime (toString n ++ " am")) := by
          rw [parseExpr_eq, hpp, hpn, if_neg h11, if_neg h12]
        rw [parse, hpe]
  · intro s n h
    obtain ⟨ht1, h2, -⟩ := tokenizeList_cons _ _ _ h
    generalize hg1 : (nextToken s).2 = s1 at h2
    obtain ⟨ht2, h3, -⟩ := tokenizeList_cons _ _ _ h2
    generalize hg2 : (nextToken s1).2 = s2 at h3
    have ht3 : (nextToken s2).1 = Token.eof := tokenizeList_nil _ h3
    have hen : expectNumber s = .ok (n, s1) := by
      rw [expectNumber, iterNext, ht1, hg1]
    have hpn : parseNumber s =
        (if 1 ≤ n ∧ n ≤ 11 then .ok (.time (u8cast (n + hoursInHalfDay)) 0, s2)
         else if n = 12 then .ok (.time 12 0, s2)
         else .error (.invalidTime (toString n ++ " pm"))) := by
      rw [parseNumber, hen]
      dsimp only
      rw [peekTok, ht2]
      dsimp only
      rw [if_neg (by decide), if_pos rfl, iterNext, hg2]
    have hpp : parsePrimary s = parseNumber s := by
      rw [parsePrimary, peekTok, ht1]
    by_cases h11 : 1 ≤ n ∧ n ≤ 11
    · have hcast : u8cast (n + hoursInHalfDay) = n.toNat + 12 := by
        unfold u8cast hoursInHalfDay
        rw [show (2 : Int) ^ 8 = 256 by norm_num,
          show (n + 12).emod 256 = (n + 12) % 256 from rfl]
        omega
      rw [if_pos h11]
      have hpe : parseExpr s = .ok (.time (u8cast (n + hoursInHalfDay)) 0, s2) := by
        rw [parseExpr_eq, hpp, hpn, if_pos h11]
        exact parseExprLoop_eof _ _ ht3
      rw [parse, hpe, hcast]
    · rw [if_neg h11]
      by_cases h12 : n = 12
      · rw [if_pos h12]
        have hpe : parseExpr s = .ok (.time 12 0, s2) := by
          rw [parseExpr_eq, hpp, hpn, if_neg h11, if_pos h12]
          exact parseExprLoop_eof _ _ ht3
        rw [parse, hpe]
      · rw [if_neg h12]
        have hpe : parseExpr s = .error (.invalidTime (toString n ++ " pm")) := by
          rw [parseExpr_eq, hpp, hpn, if_neg h11, if_neg h12]
        rw [parse, hpe]

/-- C4 witness: `7am` parses to the `Time` literal for hour 7, minute 0. -/
theorem claim_C4_witness : parse ("7am".data) = .ok (.time 7 0) := by
  have h := claim_C4.1 ("7am".data) 7 (by decide)
  rwa [if_pos (by decide)] at h

theorem daysInMonth_le (y : Int) (m : Nat) : daysInMonth y m ≤ 31 := by
  unfold daysInMonth
  split_ifs <;> omega

/-- C8 (amended): every `NUMBER/NUMBER/NUMBER` input whose numbers form a
valid Gregorian date *within the supported year range 0..=9999* parses and
evaluates to a `Date` displayed as zero-padded `YYYY-MM-DD` (year to at
least 4 digits, month and day to 2).  Years above 9999 are valid Gregorian
dates but are rejected by the library range check, see the
counterexample. -/
theorem claim_C8 (clock : TDateTime) (s : List Char) (y m d : Int)
    (h : tokenizeList s = [.number y, .slash, .number m, .slash, .number d])
    (hy0 : 0 ≤ y) (hy9 : y ≤ 9999) (hm1 : 1 ≤ m) (hm2 : m ≤ 12) (hd1 : 1 ≤ d)
    (hd2 : d ≤ (daysInMonth y m.toNat : Int)) :
    run clock s = some (.ok (pad4Int y ++ "-" ++ pad2 m.toNat ++ "-" ++ pad2 d.toNat)) := by
  obtain ⟨ht1, h2, -⟩ := tokenizeList_cons _ _ _ h
  generalize hg1 : (nextToken s).2 = s1 at h2
  obtain ⟨ht2, h3, -⟩ := tokenizeList_cons _ _ _ h2
  generalize hg2 : (nextToken s1).2 = s2 at h3
  obtain ⟨ht3, h4, -⟩ := tokenizeList_cons _ _ _ h3
  generalize hg3 : (nextToken s2).2 = s3 at h4
  obtain ⟨ht4, h5, -⟩ := tokenizeList_cons _ _ _ h4
  generalize hg4 : (nextToken s3).2 = s4 at h5
  obtain ⟨ht5, h6, -⟩ := tokenizeList_cons _ _ _ h5
  generalize hg5 : (nextToken s4).2 = s5 at h6
  have ht6 : (nextToken s5).1 = Token.eof := tokenizeList_nil _ h6
  have hen1 : expectNumber s = .ok (y, s1) := by
    rw [expectNumber, iterNext, ht1, hg1]
  have het1 : expectToken s1 .slash .expectedSlash = .ok s2 := by
    rw [expectToken, iterNext, ht2, hg2]
    dsimp only
    rw [if_pos rfl]
  have hen2 : expectNumber s2 = .ok (m, s3) := by
    rw [expectNumber, iterNext, ht3, hg3]
  have het2 : expectToken s3 .slash .expectedSlash = .ok s4 := by
    rw [expectToken, iterNext, ht4, hg4]
    dsimp only
    rw [if_pos rfl]
  have hen3 : expectNumber s4 = .ok (d, s5) := by
    rw [expectNumber, iterNext, ht5, hg5]
  have hpd : parseDate s1 y = .ok (.date (u32cast y) (u8cast m) (u8cast d), s5) := by
    rw [parseDate, het1]
    dsimp only
    rw [hen2]
    dsimp only
    rw [het2]
    dsimp only
    rw [hen3]
    dsimp only
    rw [peekTok, ht6]
  have hpn : parseNumber s = parseDate s1 y := by
    rw [parseNumber, hen1]
    dsimp only
    rw [peekTok, ht2]
  have hpp : parsePrimary s = parseNumber s := by
    rw [parsePrimary, peekTok, ht1]
  have hpe : parseExpr s = .ok (.date (u32cast y) (u8cast m) (u8cast d), s5) := by
    rw [parseExpr_eq, hpp, hpn, hpd]
    exact parseExprLoop_eof _ _ ht6
  have hparse : parse s = .ok (.date (u32cast y) (u8cast m) (u8cast d)) := by
    rw [parse, hpe]
  have hcy : u32cast y = y.toNat := by
    unfold u32cast
    rw [show (2 : Int) ^ 32 = 4294967296 by norm_num,
      show y.emod 4294967296 = y % 4294967296 from rfl]
    omega
  have hcm : u8cast m = m.toNat := by
    unfold u8cast
    rw [show (2 : Int) ^ 8 = 256 by norm_num, show m.emod 256 = m % 256 from rfl]
    omega
  have hdim31 : daysInMonth y m.toNat ≤ 31 := daysInMonth_le _ _
  have hcd : u8cast d = d.toNat := by
    unfold u8cast
    rw [show (2 : Int) ^ 8 = 256 by norm_num, show d.emod 256 = d % 256 from rfl]
    omega
  have hyy : ((y.toNat : Int)) = y := by omega
  have hfc : fromCalendarDate ((y.toNat : Int)) m.toNat d.toNat =
      some ⟨y, m.toNat, d.toNat⟩ := by
    rw [hyy, fromCalendarDate, if_pos ⟨by omega, by omega, by omega, by omega⟩]
  have heval : eval clock (Expr.date y.toNat m.toNat d.toNat) =
      some (.ok (.date ⟨y, m.toNat, d.toNat⟩)) := by
    rw [eval, fromDate, monthFromU8, if_pos ⟨by omega, by omega⟩]
    dsimp only
    rw [if_neg (by rw [show (2 : Nat) ^ 31 = 2147483648 by norm_num]; omega), hfc]
  rw [run, hparse]
  dsimp only
  rw [hcy, hcm, hcd, heval]
  rfl

/-- C8 counterexample to the claim as stated: `10000/01/01` is a valid
(proleptic) Gregorian date, but evaluation rejects it with `InvalidDate`
because the year is outside the library's supported range. -/
theorem claim_C8_counterexample :
    run sampleClock ("10000/01/01".data) =
      some (.error ("failed to evaluate expression: invalid date " ++
        qt ++ "10000-1-1" ++ qt)) := by decide

/-- C8 witness: the leap day `2024/02/29` displays as `2024-02-29`. -/
theorem claim_C8_witness :
    run sampleClock ("2024/02/29".data) =
      some (.ok (pad4Int 2024 ++ "-" ++ pad2 2 ++ "-" ++ pad2 29)) :=
  claim_C8 sampleClock _ 2024 2 29 (by decide) (by decide) (by decide) (by decide)
    (by decide) (by decide) (by decide)

end Tcalc
